import Mathlib

set_option maxRecDepth 10000

namespace SentryHelpers

/-! Shallow embedding of the pure formatting helpers of
`src/sentry/templatetags/sentry_helpers.py` (a Python 2 / Django module).

Modelling conventions:
* Python byte/unicode strings are lists of characters (`Chars`).
* Python ints are `ℕ`/`ℤ` (they are arbitrary precision in Python).
* Python floats are modelled exactly: a float value is a rational number
  (represented as a possibly unnormalized numerator/denominator pair `PyQ`;
  every operation below depends only on the rational value of its
  arguments), and every float operation rounds its exact rational result to
  53 significand bits with round-to-nearest, ties-to-even (`f64`), exactly
  as IEEE-754 binary64 does.  Overflow and subnormals are far outside the
  magnitudes these helpers touch and are not modelled.
* A function that can return values of several Python types returns an
  inductive (`PyVal`, `TSResult`); a call that raises returns `none`.
-/

abbrev Chars := List Char

/-- Result type of `small_count`, which returns either a Python int or a
Python string. -/
inductive PyVal where
  | int (n : ℤ)
  | str (s : Chars)
deriving DecidableEq

/-- Result type of `timesince`, which returns either a string or a
`datetime.date`. -/
inductive TSResult where
  | str (s : Chars)
  | date (d : ℤ)
deriving DecidableEq

/-! ### Decimal rendering of integers (Python `str` / `%d`) -/

/-- The character for a decimal digit. -/
def digitChar (d : ℕ) : Char :=
  match d with
  | 0 => '0'
  | 1 => '1'
  | 2 => '2'
  | 3 => '3'
  | 4 => '4'
  | 5 => '5'
  | 6 => '6'
  | 7 => '7'
  | 8 => '8'
  | _ => '9'

/-- Fuel-driven digit expansion (structural recursion so that the kernel can
evaluate it on literals). -/
def natCharsFuel : ℕ → ℕ → Chars
  | 0, _ => []
  | fuel + 1, n =>
    if n < 10 then [digitChar n]
    else natCharsFuel fuel (n / 10) ++ [digitChar (n % 10)]

/-- Python `str(n)` / `'%d' % n` for a natural number: decimal digits, most
significant first. -/
def natChars (n : ℕ) : Chars := natCharsFuel (n + 1) n

/-- Python `'%d' % n` for an integer. -/
def intChars (n : ℤ) : Chars :=
  if n < 0 then '-' :: natChars n.natAbs else natChars n.natAbs

/-- Python `len(str(n))` for a natural number, by the same fuel recursion. -/
def lenStrFuel : ℕ → ℕ → ℕ
  | 0, _ => 0
  | fuel + 1, n => if n < 10 then 1 else lenStrFuel fuel (n / 10) + 1

/-- Python `len(str(n))` (number of decimal digits; used on positive values
only). -/
def lenStr (n : ℕ) : ℕ := lenStrFuel (n + 1) n

/-! ### Exact model of IEEE-754 binary64 arithmetic

`PyQ` is an exact rational, written as a numerator/denominator pair with a
positive denominator; pairs are not normalized (no gcd), and every
operation on them is invariant under the represented rational value. -/

/-- An exact rational value: numerator over a positive denominator, not
necessarily in lowest terms. -/
structure PyQ where
  num : ℤ
  den : ℕ

/-- The rational `n / 1`. -/
def PyQ.ofInt (n : ℤ) : PyQ := ⟨n, 1⟩

/-- The rational `n / 1`. -/
def PyQ.ofNat (n : ℕ) : PyQ := ⟨(n : ℤ), 1⟩

/-- Value comparison `a < b` (the denominators are positive). -/
def PyQ.lt (a b : PyQ) : Prop := a.num * (b.den : ℤ) < b.num * (a.den : ℤ)

instance (a b : PyQ) : Decidable (PyQ.lt a b) := by
  unfold PyQ.lt; infer_instance

/-- Python float truthiness / comparison with zero: the value is zero. -/
def PyQ.isZero (a : PyQ) : Prop := a.num = 0

instance (a : PyQ) : Decidable (PyQ.isZero a) := by
  unfold PyQ.isZero; infer_instance

/-- Exact product. -/
def PyQ.mul (a b : PyQ) : PyQ := ⟨a.num * b.num, a.den * b.den⟩

/-- Exact difference. -/
def PyQ.sub (a b : PyQ) : PyQ :=
  ⟨a.num * (b.den : ℤ) - b.num * (a.den : ℤ), a.den * b.den⟩

/-- Exact quotient (the modelled code never divides by zero; that case is
mapped to zero). -/
def PyQ.div (a b : PyQ) : PyQ :=
  if b.num < 0 then ⟨-(a.num * (b.den : ℤ)), a.den * b.num.natAbs⟩
  else ⟨a.num * (b.den : ℤ), a.den * b.num.natAbs⟩

/-- Floor of the value, as an integer. -/
def PyQ.floor (q : PyQ) : ℤ := Int.fdiv q.num (q.den : ℤ)

/-- Round the nonnegative rational `num / den` to the nearest natural
number, ties going to the even neighbour. -/
def rhe (num den : ℕ) : ℕ :=
  let k := num / den
  let r := num % den
  if 2 * r < den then k
  else if den < 2 * r then k + 1
  else if k % 2 = 0 then k else k + 1

/-- Fuel-driven base-2 logarithm (structural recursion so that the kernel
can evaluate it on literals). -/
def log2Fuel : ℕ → ℕ → ℕ
  | 0, _ => 0
  | fuel + 1, n => if n < 2 then 0 else log2Fuel fuel (n / 2) + 1

/-- Floor of the base-2 logarithm of a positive natural number. -/
def natLog2 (n : ℕ) : ℕ := log2Fuel n n

/-- Floor of the base-2 logarithm of the rational `a / b`, for `a, b ≥ 1`. -/
def qlog2 (a b : ℕ) : ℤ :=
  let la := natLog2 a
  let lb := natLog2 b
  if b * 2 ^ la ≤ a * 2 ^ lb then (la : ℤ) - lb else (la : ℤ) - lb - 1

/-- The IEEE-754 binary64 value nearest to the rational `q` (round to
nearest, ties to even), represented exactly: the significand is rounded to
53 bits. -/
def f64 (q : PyQ) : PyQ :=
  if q.num = 0 then ⟨0, 1⟩
  else
    let a := q.num.natAbs
    let b := q.den
    let e := qlog2 a b
    let m := if 0 ≤ 52 - e then rhe (a * 2 ^ (52 - e).toNat) b
             else rhe a (b * 2 ^ (e - 52).toNat)
    let mag : PyQ := if 0 ≤ e - 52 then ⟨(m : ℤ) * ((2 ^ (e - 52).toNat : ℕ) : ℤ), 1⟩
                     else ⟨(m : ℤ), 2 ^ (52 - e).toNat⟩
    if q.num < 0 then ⟨-mag.num, mag.den⟩ else mag

/-- Python float division of two doubles: the exact quotient, rounded back
to binary64. -/
def f64div (x y : PyQ) : PyQ := f64 (x.div y)

/-- Python float multiplication of two doubles. -/
def f64mul (x y : PyQ) : PyQ := f64 (x.mul y)

/-- Python `float(n)`: conversion of an integer to a double. -/
def floatOfInt (n : ℤ) : PyQ := f64 (PyQ.ofInt n)

/-- Python `int(f)` and the `%d` conversion applied to a float: truncation
toward zero. -/
def pyTrunc (q : PyQ) : ℤ :=
  if q.num < 0 then -(PyQ.floor ⟨-q.num, q.den⟩) else PyQ.floor q

/-- Python `x % y` on nonnegative floats (`fmod`, which is exact). -/
def pyFmod (x y : PyQ) : PyQ := x.sub (y.mul (PyQ.ofInt (PyQ.floor (x.div y))))

/-- Round a nonnegative double to the nearest natural, ties to even: the
decimal rounding used by Python float formatting (which is correctly
rounded). -/
def rheQ (q : PyQ) : ℕ := rhe q.num.natAbs q.den

/-- Python `'%.1f' % d` for a nonnegative double `d`. -/
def pyFmt1 (d : PyQ) : Chars :=
  let n := rheQ (d.mul (PyQ.ofNat 10))
  natChars (n / 10) ++ '.' :: [digitChar (n % 10)]

/-- Python `'%0.2f' % d` for a nonnegative double `d`. -/
def pyFmt2 (d : PyQ) : Chars :=
  let n := rheQ (d.mul (PyQ.ofNat 100))
  natChars (n / 100) ++ '.' :: digitChar (n % 100 / 10) :: [digitChar (n % 10)]

/-! ### `small_count` (the compact number formatter) -/

/-- The table `z` of `small_count`. -/
def small_count_units : List (ℕ × Chars) :=
  [(1000000000, "b".data), (1000000, "m".data), (1000, "k".data)]

/-- The `for x, y in z` loop of `small_count`: the first divisor with a
nonzero quotient `o = v / x` decides the rendering (`'%d%s' % (o, y)` when
`len(str(o)) > 2` or the remainder `p` is zero, else
`'%.1f%s' % (v / float(x), y)`); `none` when the loop falls through. -/
def small_count_loop (v : ℕ) : List (ℕ × Chars) → Option Chars
  | [] => none
  | (x, y) :: rest =>
    let o := v / x
    let p := v % x
    if o ≠ 0 then
      some (if 2 < lenStr o ∨ p = 0 then natChars o ++ y
            else pyFmt1 (f64div (floatOfInt v) (floatOfInt x)) ++ y)
    else small_count_loop v rest

/-- `sentry.templatetags.sentry_helpers.small_count`, translated from the
source.  A falsy (zero) input returns the Python int `0`; a fall-through
returns the input int unchanged. -/
def small_count (v : ℕ) : PyVal :=
  if v = 0 then .int 0
  else
    match small_count_loop v small_count_units with
    | some s => .str s
    | none => .int (v : ℤ)

/-! ### `duration` (the millisecond duration formatter) -/

/-- `sentry.templatetags.sentry_helpers.duration`, translated from the
source.  The input is a millisecond count; a falsy (zero) input returns
"0s".  `value / 1000.0` converts the int to a double and divides; the two
strict comparisons, the float divisions, the exact float modulus, the `%d`
truncations and the `%0.2f` rounding are modelled exactly; the output list
of components is joined with the empty separator. -/
def duration (value : ℕ) : Chars :=
  if value = 0 then "0s".data
  else
    let v0 := f64div (floatOfInt value) (PyQ.ofNat 1000)
    let hours : PyQ := if PyQ.lt (PyQ.ofNat 3600) v0 then f64div v0 (PyQ.ofNat 3600) else PyQ.ofNat 0
    let v1 : PyQ := if PyQ.lt (PyQ.ofNat 3600) v0 then pyFmod v0 (PyQ.ofNat 3600) else v0
    let minutes : PyQ := if PyQ.lt (PyQ.ofNat 60) v1 then f64div v1 (PyQ.ofNat 60) else PyQ.ofNat 0
    let v2 : PyQ := if PyQ.lt (PyQ.ofNat 60) v1 then pyFmod v1 (PyQ.ofNat 60) else v1
    let seconds := v2
    let output : List Chars :=
      (if ¬ hours.isZero then [intChars (pyTrunc hours) ++ "h".data] else []) ++
      (if ¬ minutes.isZero then [intChars (pyTrunc minutes) ++ "m".data] else []) ++
      (if PyQ.lt (PyQ.ofNat 1) seconds then [pyFmt2 seconds ++ "s".data]
       else if ¬ seconds.isZero then
         [intChars (pyTrunc (f64mul seconds (PyQ.ofNat 1000))) ++ "ms".data]
       else [])
    output.flatten

/-- The hours/minutes/leftover-seconds extraction of the duration, as §4.2
of the spec describes it: convert to seconds, extract hours when the total
exceeds 3600 seconds, minutes when the remainder exceeds 60 seconds, and the
leftover seconds. -/
def durationParts (value : ℕ) : PyQ × PyQ × PyQ :=
  let total := f64div (floatOfInt value) (PyQ.ofNat 1000)
  let hours : PyQ := if PyQ.lt (PyQ.ofNat 3600) total then f64div total (PyQ.ofNat 3600) else PyQ.ofNat 0
  let rem1 : PyQ := if PyQ.lt (PyQ.ofNat 3600) total then pyFmod total (PyQ.ofNat 3600) else total
  let minutes : PyQ := if PyQ.lt (PyQ.ofNat 60) rem1 then f64div rem1 (PyQ.ofNat 60) else PyQ.ofNat 0
  let rem2 : PyQ := if PyQ.lt (PyQ.ofNat 60) rem1 then pyFmod rem1 (PyQ.ofNat 60) else rem1
  (hours, minutes, rem2)

/-- The hour component of the output: present when nonzero. -/
def hourComponent (h : PyQ) : Chars :=
  if ¬ h.isZero then intChars (pyTrunc h) ++ "h".data else []

/-- The minute component of the output: present when nonzero. -/
def minuteComponent (m : PyQ) : Chars :=
  if ¬ m.isZero then intChars (pyTrunc m) ++ "m".data else []

/-- The seconds component of the output, amended to what the code does:
two-decimal seconds when the leftover is strictly greater than one second,
and otherwise the truncation (not the rounding) of seconds * 1000
milliseconds when the leftover is positive. -/
def secondComponent (s : PyQ) : Chars :=
  if PyQ.lt (PyQ.ofNat 1) s then pyFmt2 s ++ "s".data
  else if ¬ s.isZero then intChars (pyTrunc (f64mul s (PyQ.ofNat 1000))) ++ "ms".data
  else []

/-- DurationFormatter as claim C5 amends it: falsy input gives "0s", and
otherwise the nonzero hour, minute and second components are concatenated
with no separator, the sub-one-second case truncating seconds * 1000. -/
def duration_spec (value : ℕ) : Chars :=
  if value = 0 then "0s".data
  else
    let p := durationParts value
    hourComponent p.1 ++ minuteComponent p.2.1 ++ secondComponent p.2.2

/-- The seconds component exactly as claim C5 states it, before amendment:
the sub-one-second case is written "(s*1000):.0f", which rounds to the
nearest millisecond (ties to even) instead of truncating. -/
def secondComponentClaimed (s : PyQ) : Chars :=
  if PyQ.lt (PyQ.ofNat 1) s then pyFmt2 s ++ "s".data
  else if ¬ s.isZero then natChars (rheQ (f64mul s (PyQ.ofNat 1000))) ++ "ms".data
  else []

/-- DurationFormatter as claim C5 literally states it (rounding in the
millisecond branch). -/
def duration_claimed (value : ℕ) : Chars :=
  if value = 0 then "0s".data
  else
    let p := durationParts value
    hourComponent p.1 ++ minuteComponent p.2.1 ++ secondComponentClaimed p.2.2

/-! ### `timesince` (the relative time formatter)

Timestamps (timezone-aware datetimes) are modelled as integer seconds;
`datetime.date()` becomes the whole-day floor.  The wrapped Django helper is
not part of this repository, so it is modelled from the spec. -/

/-- Python `datetime.date()`: the date portion of a timestamp, as whole days
(time-of-day discarded). -/
def pyDate (t : ℤ) : ℤ := Int.fdiv t 86400

/-- Python `s.split(sep)` for a one-character separator: splits on every
occurrence and keeps empty pieces. -/
def pySplit (sep : Char) : Chars → List Chars
  | [] => [[]]
  | c :: rest =>
    if c = sep then [] :: pySplit sep rest
    else
      match pySplit sep rest with
      | [] => [[c]]
      | t :: ts => (c :: t) :: ts

/-- Python `s.strip(c)`: remove every leading and trailing occurrence of the
character `c`. -/
def pyStrip (c : Char) (s : Chars) : Chars :=
  ((s.dropWhile (fun x => x = c)).reverse.dropWhile (fun x => x = c)).reverse

/-- The post-processing `' '.join(timesince(value, now).split(' ')[0:2])` of
the wrapper: keep the first two space-separated tokens. -/
def firstTwoWords (s : Chars) : Chars :=
  List.intercalate [' '] ((pySplit ' ' s).take 2)

/-- The pluralized unit name, as Django renders counts ("1 day", "3 days"). -/
def pluralName (name : Chars) (count : ℕ) : Chars :=
  name ++ (if count = 1 then [] else ['s'])

/-- One "count unit" phrase of the Django delta string. -/
def renderCount (count : ℕ) (name : Chars) : Chars :=
  natChars count ++ ' ' :: pluralName name count

/-- The unit table of Django's timesince helper: seconds per year, month,
week, day, hour, minute. -/
def timesinceChunks : List (ℕ × Chars) :=
  [(31536000, "year".data), (2592000, "month".data), (604800, "week".data),
   (86400, "day".data), (3600, "hour".data), (60, "minute".data)]

/-- Modelled from the spec: the loop of Django's `timesince` helper (an
external collaborator of this repository; the spec describes its output as
"a human delta string using the two most significant time units (e.g.,
3 days, 2 hours)").  The first unit with a nonzero count is rendered and,
when the count of the immediately following unit is nonzero, that unit is
appended after a comma and a space. -/
def djLoop : List (ℕ × Chars) → ℕ → Chars
  | [], _ => "0 minutes".data
  | (secs, name) :: rest, since =>
    let count := since / secs
    if count = 0 then djLoop rest since
    else
      renderCount count name ++
      (match rest with
       | [] => []
       | (secs2, name2) :: _ =>
         let count2 := (since - secs * count) / secs2
         if count2 = 0 then [] else ',' :: ' ' :: renderCount count2 name2)

/-- Modelled from the spec: Django's `timesince(d, now)` for a nonnegative
delta, "a human delta string using the two most significant time units";
a non-positive delta and a delta below one minute render as "0 minutes". -/
def django_timesince (d now : ℤ) : Chars :=
  let since := now - d
  if since ≤ 0 then "0 minutes".data
  else djLoop timesinceChunks since.toNat

/-- `sentry.templatetags.sentry_helpers.timesince`, translated from the
source: a falsy (`None`) value renders as "never"; a value more than five
days before `now` returns its date portion; otherwise the first two
space-separated tokens of the Django delta string, with commas stripped,
become "just now" (for "0 minutes"), "yesterday" (for "1 day"), or the
phrase with " ago" appended.  The `ugettext` translation is the identity
(no translation catalogue is installed). -/
def timesince (value : Option ℤ) (now : ℤ) : TSResult :=
  match value with
  | none => .str "never".data
  | some v =>
    if v < now - 5 * 86400 then .date (pyDate v)
    else
      let s := pyStrip ',' (firstTwoWords (django_timesince v now))
      if s = "0 minutes".data then .str "just now".data
      else if s = "1 day".data then .str "yesterday".data
      else .str (s ++ " ago".data)

/-- The single most significant unit of the delta (what the wrapper's
two-token truncation actually keeps): the first unit with a nonzero count,
rendered with no second unit. -/
def mostSigLoop : List (ℕ × Chars) → ℕ → Chars
  | [], _ => "0 minutes".data
  | (secs, name) :: rest, since =>
    if since / secs = 0 then mostSigLoop rest since
    else renderCount (since / secs) name

/-- The most significant unit phrase of the elapsed time from `d` to
`now`. -/
def mostSigPhrase (d now : ℤ) : Chars :=
  if now - d ≤ 0 then "0 minutes".data
  else mostSigLoop timesinceChunks (now - d).toNat

/-! ### `pprint` (the soft-wrap helper) -/

/-- Django `escape` applied to one character: the five HTML-significant
characters become entities (Django chains the five replacements with the
ampersand first, which is equivalent to this per-character map). -/
def escapeChar (c : Char) : Chars :=
  if c = '&' then "&amp;".data
  else if c = '<' then "&lt;".data
  else if c = '>' then "&gt;".data
  else if c = Char.ofNat 34 then "&quot;".data
  else if c = Char.ofNat 39 then "&#39;".data
  else [c]

/-- Django `escape` on a string. -/
def escape (s : Chars) : Chars := s.flatMap escapeChar

/-- Python `range(0, n, step)`: `none` models the `ValueError` raised for a
zero step; a negative step with a nonnegative stop yields no indices. -/
def pyRange (n : ℕ) (step : ℤ) : Option (List ℕ) :=
  if step = 0 then none
  else if step < 0 then some []
  else some (List.range' 0 ((n + step.toNat - 1) / step.toNat) step.toNat)

/-- Python slice `value[i : i + k]` for a nonnegative start `i` and width
`k`. -/
def pySlice (s : Chars) (i k : ℕ) : Chars := (s.drop i).take k

/-- `sentry.templatetags.sentry_helpers.pprint`, translated from the source:
the chunks `value[i:(i + break_after)]` for `i in range(0, len(value),
break_after)` are HTML-escaped and joined with the soft-wrap marker
`<span></span>`; `none` models the `ValueError` Python raises when
`break_after` is zero. -/
def pprint (value : Chars) (break_after : ℤ) : Option Chars :=
  (pyRange value.length break_after).map
    (fun idxs => List.intercalate "<span></span>".data
      (idxs.map (fun i => escape (pySlice value i break_after.toNat))))

/-- The chunking that §4.4 softWrap describes: consecutive chunks of at most
`k` characters (fuel-driven structural recursion; the fuel is the length of
the string). -/
def chunksFuel : ℕ → ℕ → Chars → List Chars
  | 0, _, _ => []
  | _, _, [] => []
  | fuel + 1, k, s => s.take k :: chunksFuel fuel k (s.drop k)

/-- The consecutive chunks of at most `k` characters of `s`. -/
def chunksSpec (k : ℕ) (s : Chars) : List Chars := chunksFuel s.length k s

/-! ### `percent` -/

/-- `sentry.templatetags.sentry_helpers.percent`, translated from the
source: `0` when either argument is falsy (zero), else
`int(int(value) / float(total) * 100)` — binary64 division and
multiplication, truncated toward zero. -/
def percent (value total : ℤ) : ℤ :=
  if value = 0 ∨ total = 0 then 0
  else pyTrunc (f64mul (f64div (floatOfInt value) (floatOfInt total)) (PyQ.ofNat 100))

/-! ### Spec-side definitions for the refinement claims -/

/-- The rendering §4.1 of the spec describes at divisor `x` with unit `u`:
the integer rendering when the quotient has more than two digits (that is,
is at least 100) or the remainder is zero, else the one-decimal rendering
of v divided by x. -/
def specRender (v x : ℕ) (u : Chars) : Chars :=
  if 100 ≤ v / x ∨ v % x = 0 then natChars (v / x) ++ u
  else pyFmt1 (f64div (floatOfInt v) (floatOfInt x)) ++ u

/-- CompactNumberFormatter as §4.1 of the spec and claim C4 describe it:
divide by 10^9, 10^6, 10^3 largest first, render at the first divisor with
a nonzero integer quotient, and pass the value through unchanged when every
quotient is zero. -/
def small_count_spec (v : ℕ) : PyVal :=
  if v = 0 then .int 0
  else if v / 1000000000 ≠ 0 then .str (specRender v 1000000000 "b".data)
  else if v / 1000000 ≠ 0 then .str (specRender v 1000000 "m".data)
  else if v / 1000 ≠ 0 then .str (specRender v 1000 "k".data)
  else .int (v : ℤ)

/-! ### Helper lemmas -/

theorem lenStrFuel_char (fuel : ℕ) : ∀ n, 1 ≤ n → n ≤ fuel →
    (2 < lenStrFuel fuel n ↔ 100 ≤ n) ∧ (1 < lenStrFuel fuel n ↔ 10 ≤ n) ∧
    0 < lenStrFuel fuel n := by
  induction fuel with
  | zero => intro n h1 h2; omega
  | succ fuel ih =>
    intro n h1 h2
    by_cases h : n < 10
    · simp only [lenStrFuel, if_pos h]
      refine ⟨by omega, by omega, by omega⟩
    · simp only [lenStrFuel, if_neg h]
      have hd1 : 1 ≤ n / 10 := by omega
      have hd2 : n / 10 ≤ fuel := by omega
      obtain ⟨i2, i1, i0⟩ := ih (n / 10) hd1 hd2
      refine ⟨by omega, by omega, by omega⟩

/-- `len(str(n)) > 2` says exactly that a positive `n` is at least 100. -/
theorem lenStr_gt_two_iff (n : ℕ) (h : 1 ≤ n) : 2 < lenStr n ↔ 100 ≤ n :=
  (lenStrFuel_char (n + 1) n h (by omega)).1

/-! ### Claims about `small_count` -/

/-- C2 counterexample: at 2500000000 the quotient by 10^9 is 2, with a
nonzero remainder and at most two digits, so the one-decimal branch fires
and renders "2.5b" — the claim's value "2b" is wrong. -/
theorem small_count_2_5b_counterexample :
    small_count 2500000000 = PyVal.str "2.5b".data ∧
    small_count 2500000000 ≠ PyVal.str "2b".data := by
  refine ⟨by decide, by decide⟩

/-- C2 amended: the compact number formatter applied to 2500000000 returns
the string "2.5b". -/
theorem small_count_at_2500000000 :
    small_count 2500000000 = PyVal.str "2.5b".data := by decide

/-- C9 counterexample: a falsy input returns the Python integer 0, not the
string "0". -/
theorem small_count_zero_counterexample :
    small_count 0 = PyVal.int 0 ∧ small_count 0 ≠ PyVal.str "0".data := by
  refine ⟨by decide, by decide⟩

/-- C9 amended: the compact number formatter applied to 0 returns the
Python integer 0 (which displays as "0" but is not a string). -/
theorem small_count_at_zero : small_count 0 = PyVal.int 0 := by decide

/-- C4: for every positive integer the compact number formatter divides by
10^9, 10^6, 10^3 in that order and renders at the first nonzero quotient —
the integer form when the quotient has more than 2 digits or the remainder
is zero, the one-decimal form otherwise — and passes the value through
unchanged when every quotient is zero; in particular 1500 renders "1.5k",
150000 renders "150k", and 999 passes through as 999. -/
theorem small_count_follows_spec (v : ℕ) (h : 0 < v) :
    small_count v = small_count_spec v ∧
    small_count 1500 = PyVal.str "1.5k".data ∧
    small_count 150000 = PyVal.str "150k".data ∧
    small_count 999 = PyVal.int 999 := by
  refine ⟨?_, by decide, by decide, by decide⟩
  have hv : v ≠ 0 := by omega
  simp only [small_count, small_count_spec, small_count_units, small_count_loop,
    specRender, if_neg hv]
  by_cases h9 : v / 1000000000 = 0
  · by_cases h6 : v / 1000000 = 0
    · by_cases h3 : v / 1000 = 0
      · simp [h9, h6, h3]
      · simp [h9, h6, h3, lenStr_gt_two_iff _ (Nat.one_le_iff_ne_zero.mpr h3)]
    · simp [h9, h6, lenStr_gt_two_iff _ (Nat.one_le_iff_ne_zero.mpr h6)]
  · simp [h9, lenStr_gt_two_iff _ (Nat.one_le_iff_ne_zero.mpr h9)]

/-- Witness for C4 at the concrete input 1500. -/
theorem small_count_follows_spec_witness :
    0 < 1500 ∧ small_count 1500 = small_count_spec 1500 :=
  ⟨by decide, (small_count_follows_spec 1500 (by decide)).1⟩

/-! ### Claims about `duration` -/

/-- C1 counterexample: a leftover of exactly one second fails the strict
`seconds > 1` comparison, so the millisecond branch fires: 61000 ms renders
"1m1000ms" (not "1m1.00s") and 3661000 ms renders "1h1m1000ms" (not
"1h1m1.00s"). -/
theorem duration_exact_second_counterexample :
    duration 61000 = "1m1000ms".data ∧ duration 61000 ≠ "1m1.00s".data ∧
    duration 3661000 ≠ "1h1m1.00s".data := by
  refine ⟨by decide, by decide, by decide⟩

/-- C1 amended: for 61000 ms the duration formatter returns "1m1000ms" and
for 3661000 ms it returns "1h1m1000ms"; a leftover of exactly one second is
rendered by the millisecond branch because the two-decimal branch requires
strictly more than one second. -/
theorem duration_at_61000_3661000 :
    duration 61000 = "1m1000ms".data ∧ duration 3661000 = "1h1m1000ms".data := by
  refine ⟨by decide, by decide⟩

/-- C5 counterexample: the claim writes the sub-one-second branch as
"(s*1000):.0f", which rounds to the nearest integer, but the code uses the
truncating %d conversion.  At 60001 ms the leftover seconds double is
0.0009999999999976694, whose product with 1000 is just below 1, so the code
renders "1m0ms" while the claim's formula renders "1m1ms". -/
theorem duration_ms_truncation_counterexample :
    duration 60001 = "1m0ms".data ∧ duration_claimed 60001 = "1m1ms".data ∧
    duration 60001 ≠ duration_claimed 60001 := by
  refine ⟨by decide, by decide, by decide⟩

/-- C5 amended: for every duration input a falsy input returns "0s", and
otherwise the output concatenates the nonzero hour, minute and second
components with no separator, the seconds component being the two-decimal
"%0.2f" form when the leftover seconds are strictly greater than 1 and the
truncation (not the rounding) of seconds * 1000 milliseconds when they are
positive but not greater than 1. -/
theorem duration_follows_spec (value : ℕ) :
    duration value = duration_spec value ∧ duration 0 = "0s".data := by
  refine ⟨?_, by decide⟩
  by_cases h : value = 0
  · subst h; rfl
  · simp only [duration, duration_spec, durationParts, hourComponent, minuteComponent,
      secondComponent, if_neg h]
    split_ifs <;> simp

/-! ### Claims about `timesince` -/

/-- C6: a timestamp strictly more than five days before now returns only
its date portion (no time-of-day), and a falsy input returns "never". -/
theorem timesince_date_fallback (v now : ℤ) (h : v < now - 5 * 86400) :
    timesince (some v) now = TSResult.date (pyDate v) ∧
    timesince none now = TSResult.str "never".data := by
  constructor
  · simp only [timesince, if_pos h]
  · rfl

/-- Witness for C6: six days before now falls back to the date portion. -/
theorem timesince_date_fallback_witness :
    (0 : ℤ) < 6 * 86400 - 5 * 86400 ∧
    timesince (some 0) (6 * 86400) = TSResult.date (pyDate 0) :=
  ⟨by decide, (timesince_date_fallback 0 (6 * 86400) (by decide)).1⟩

/-! ### Lemmas for the `timesince` truncation -/

theorem digitChar_ne (d : ℕ) : digitChar d ≠ ' ' ∧ digitChar d ≠ ',' := by
  unfold digitChar
  split <;> exact ⟨by decide, by decide⟩

theorem natCharsFuel_ne (fuel : ℕ) : ∀ n c, c ∈ natCharsFuel fuel n → c ≠ ' ' ∧ c ≠ ',' := by
  induction fuel with
  | zero => intro n c hc; simp [natCharsFuel] at hc
  | succ fuel ih =>
    intro n c hc
    by_cases h : n < 10
    · simp only [natCharsFuel, if_pos h, List.mem_singleton] at hc
      subst hc; exact digitChar_ne n
    · simp only [natCharsFuel, if_neg h, List.mem_append, List.mem_singleton] at hc
      rcases hc with hc | hc
      · exact ih _ _ hc
      · subst hc; exact digitChar_ne _

theorem natChars_ne (n : ℕ) : ∀ c ∈ natChars n, c ≠ ' ' ∧ c ≠ ',' :=
  fun c hc => natCharsFuel_ne (n + 1) n c hc

theorem natChars_ne_nil (n : ℕ) : natChars n ≠ [] := by
  simp only [natChars, natCharsFuel]
  split <;> simp

theorem pySplit_ne_nil (sep : Char) (s : Chars) : pySplit sep s ≠ [] := by
  induction s with
  | nil => simp [pySplit]
  | cons c rest ih =>
    simp only [pySplit]
    split
    · simp
    · cases h : pySplit sep rest with
      | nil => simp
      | cons t ts => simp

theorem pySplit_no_sep (sep : Char) (s : Chars) (h : ∀ c ∈ s, c ≠ sep) :
    pySplit sep s = [s] := by
  induction s with
  | nil => rfl
  | cons c rest ih =>
    have hc : c ≠ sep := h c (List.mem_cons_self _ _)
    have hr : ∀ x ∈ rest, x ≠ sep := fun x hx => h x (List.mem_cons_of_mem _ hx)
    simp only [pySplit, if_neg hc, ih hr]

theorem pySplit_append (sep : Char) (xs ys : Chars) (h : ∀ c ∈ xs, c ≠ sep) :
    pySplit sep (xs ++ sep :: ys) = xs :: pySplit sep ys := by
  induction xs with
  | nil => simp [pySplit]
  | cons c rest ih =>
    have hc : c ≠ sep := h c (List.mem_cons_self _ _)
    have hr : ∀ x ∈ rest, x ≠ sep := fun x hx => h x (List.mem_cons_of_mem _ hx)
    rw [List.cons_append]
    simp only [pySplit, if_neg hc, ih hr]

theorem dropWhile_eq_self_of_ne (c : Char) (s : Chars) (h : ∀ x ∈ s, x ≠ c) :
    s.dropWhile (fun x => x = c) = s := by
  cases s with
  | nil => rfl
  | cons a t =>
    have ha : a ≠ c := h a (List.mem_cons_self _ _)
    simp [List.dropWhile_cons, ha]

theorem pyStrip_of_ne (c : Char) (s : Chars) (h : ∀ x ∈ s, x ≠ c) :
    pyStrip c s = s := by
  unfold pyStrip
  rw [dropWhile_eq_self_of_ne c s h,
    dropWhile_eq_self_of_ne c s.reverse (fun x hx => h x (List.mem_reverse.mp hx)),
    List.reverse_reverse]

theorem pyStrip_append_sep (c : Char) (s : Chars) (h : ∀ x ∈ s, x ≠ c) :
    pyStrip c (s ++ [c]) = s := by
  cases s with
  | nil => simp [pyStrip, List.dropWhile]
  | cons a t =>
    have ha : a ≠ c := h a (List.mem_cons_self _ _)
    have ht : ∀ x ∈ a :: t, x ≠ c := h
    unfold pyStrip
    rw [List.cons_append, List.dropWhile_cons]
    simp only [decide_eq_true_eq, ha, if_false]
    rw [show a :: (t ++ [c]) = (a :: t) ++ [c] from by simp,
      List.reverse_append]
    rw [show ([c] : Chars).reverse ++ (a :: t).reverse = c :: (a :: t).reverse from by simp]
    rw [show List.dropWhile (fun x => decide (x = c)) (c :: (a :: t).reverse) =
        List.dropWhile (fun x => decide (x = c)) (a :: t).reverse from by
      simp [List.dropWhile_cons]]
    rw [dropWhile_eq_self_of_ne c (a :: t).reverse
      (fun x hx => ht x (List.mem_reverse.mp hx)), List.reverse_reverse]

theorem intercalate_pair (s a b : Chars) :
    List.intercalate s [a, b] = a ++ s ++ b := by
  simp [List.intercalate, List.intersperse]

/-- The wrapper truncation on a one-unit phrase: unchanged. -/
theorem strip_one_unit (D N : Chars) (hD : ∀ x ∈ D, x ≠ ' ' ∧ x ≠ ',')
    (hN : ∀ x ∈ N, x ≠ ' ' ∧ x ≠ ',') :
    pyStrip ',' (firstTwoWords (D ++ ' ' :: N)) = D ++ ' ' :: N := by
  unfold firstTwoWords
  rw [pySplit_append ' ' D N (fun x hx => (hD x hx).1),
    pySplit_no_sep ' ' N (fun x hx => (hN x hx).1)]
  rw [show ([D, N] : List Chars).take 2 = [D, N] from rfl, intercalate_pair]
  rw [show D ++ [' '] ++ N = D ++ ' ' :: N from by simp]
  refine pyStrip_of_ne ',' _ (fun x hx => ?_)
  rcases List.mem_append.mp hx with hx | hx
  · exact (hD x hx).2
  · rcases List.mem_cons.mp hx with rfl | hx
    · decide
    · exact (hN x hx).2

/-- The wrapper truncation on a two-unit phrase: only the first unit
survives, with its trailing comma stripped. -/
theorem strip_two_unit (D N r : Chars) (hD : ∀ x ∈ D, x ≠ ' ' ∧ x ≠ ',')
    (hN : ∀ x ∈ N, x ≠ ' ' ∧ x ≠ ',') :
    pyStrip ',' (firstTwoWords (D ++ ' ' :: (N ++ ',' :: ' ' :: r))) = D ++ ' ' :: N := by
  unfold firstTwoWords
  rw [show N ++ ',' :: ' ' :: r = (N ++ [',']) ++ ' ' :: r from by simp]
  rw [pySplit_append ' ' D _ (fun x hx => (hD x hx).1)]
  rw [pySplit_append ' ' (N ++ [',']) r (fun x hx => by
    rcases List.mem_append.mp hx with hx | hx
    · exact (hN x hx).1
    · rcases List.mem_singleton.mp hx with rfl
      decide)]
  rw [show (D :: (N ++ [',']) :: pySplit ' ' r).take 2 = [D, N ++ [',']] from rfl,
    intercalate_pair]
  rw [show D ++ [' '] ++ (N ++ [',']) = (D ++ ' ' :: N) ++ [','] from by simp]
  refine pyStrip_append_sep ',' _ (fun x hx => ?_)
  rcases List.mem_append.mp hx with hx | hx
  · exact (hD x hx).2
  · rcases List.mem_cons.mp hx with rfl | hx
    · decide
    · exact (hN x hx).2

theorem pluralName_ne (name : Chars) (hn : ∀ x ∈ name, x ≠ ' ' ∧ x ≠ ',') (count : ℕ) :
    ∀ x ∈ pluralName name count, x ≠ ' ' ∧ x ≠ ',' := by
  intro x hx
  unfold pluralName at hx
  rcases List.mem_append.mp hx with hx | hx
  · exact hn x hx
  · split at hx
    · simp at hx
    · rcases List.mem_singleton.mp hx with rfl
      exact ⟨by decide, by decide⟩

/-- The wrapper truncation collapses every Django delta phrase to its most
significant unit. -/
theorem strip_djLoop (l : List (ℕ × Chars))
    (hl : ∀ p ∈ l, ∀ x ∈ p.2, x ≠ ' ' ∧ x ≠ ',') :
    ∀ since, pyStrip ',' (firstTwoWords (djLoop l since)) = mostSigLoop l since := by
  induction l with
  | nil =>
    intro since
    simp only [djLoop, mostSigLoop]
    decide
  | cons p rest ih =>
    intro since
    obtain ⟨secs, name⟩ := p
    have hname : ∀ x ∈ name, x ≠ ' ' ∧ x ≠ ',' := hl ⟨secs, name⟩ (List.mem_cons_self _ _)
    have hrest : ∀ q ∈ rest, ∀ x ∈ q.2, x ≠ ' ' ∧ x ≠ ',' :=
      fun q hq => hl q (List.mem_cons_of_mem _ hq)
    simp only [djLoop, mostSigLoop]
    by_cases hc : since / secs = 0
    · simp only [if_pos hc]
      exact ih hrest since
    · simp only [if_neg hc]
      cases rest with
      | nil =>
        simp only [List.append_nil]
        unfold renderCount
        exact strip_one_unit _ _ (natChars_ne _) (pluralName_ne name hname _)
      | cons q rest2 =>
        obtain ⟨secs2, name2⟩ := q
        have hname2 : ∀ x ∈ name2, x ≠ ' ' ∧ x ≠ ',' :=
          hrest ⟨secs2, name2⟩ (List.mem_cons_self _ _)
        by_cases hc2 : (since - secs * (since / secs)) / secs2 = 0
        · simp only [if_pos hc2, List.append_nil]
          unfold renderCount
          exact strip_one_unit _ _ (natChars_ne _) (pluralName_ne name hname _)
        · simp only [if_neg hc2]
          unfold renderCount
          rw [show (natChars (since / secs) ++ ' ' :: pluralName name (since / secs)) ++
              ',' :: ' ' :: (natChars ((since - secs * (since / secs)) / secs2) ++
                ' ' :: pluralName name2 ((since - secs * (since / secs)) / secs2)) =
              natChars (since / secs) ++ ' ' :: (pluralName name (since / secs) ++
              ',' :: ' ' :: (natChars ((since - secs * (since / secs)) / secs2) ++
                ' ' :: pluralName name2 ((since - secs * (since / secs)) / secs2)))
            from by simp]
          exact strip_two_unit _ _ _ (natChars_ne _) (pluralName_ne name hname _)

/-- The wrapper truncation of the Django delta string is exactly the most
significant unit phrase. -/
theorem strip_django (v now : ℤ) :
    pyStrip ',' (firstTwoWords (django_timesince v now)) = mostSigPhrase v now := by
  simp only [django_timesince, mostSigPhrase]
  by_cases h : now - v ≤ 0
  · simp only [if_pos h]
    decide
  · simp only [if_neg h]
    exact strip_djLoop timesinceChunks (by decide) _

/-- C3 counterexample: at an elapsed time of 3 days and 2 hours the Django
delta string is "3 days, 2 hours", but the formatter keeps only the first
two space-separated tokens — the single most significant unit — so the
result is "3 days ago", not the claimed "3 days 2 hours ago". -/
theorem timesince_two_units_counterexample :
    django_timesince 0 266400 = "3 days, 2 hours".data ∧
    timesince (some 0) 266400 = TSResult.str "3 days ago".data ∧
    timesince (some 0) 266400 ≠ TSResult.str "3 days 2 hours ago".data := by
  refine ⟨by decide, by decide, by decide⟩

/-- C3 amended: for every timestamp within five days of now that does not
hit the "0 minutes" or "1 day" special cases, the result is the single most
significant time unit of the elapsed time (the first two space-separated
tokens of the Django delta phrase, so "3 days, 2 hours" yields "3 days"),
with the trailing comma stripped and " ago" appended. -/
theorem timesince_most_significant_unit (v now : ℤ)
    (h5 : ¬ v < now - 5 * 86400)
    (h0 : mostSigPhrase v now ≠ "0 minutes".data)
    (h1 : mostSigPhrase v now ≠ "1 day".data) :
    timesince (some v) now = TSResult.str (mostSigPhrase v now ++ " ago".data) := by
  simp only [timesince, if_neg h5, strip_django, if_neg h0, if_neg h1]

/-- Witness for C3 at a delta of 3 days and 2 hours. -/
theorem timesince_most_significant_unit_witness :
    (¬ (0 : ℤ) < 266400 - 5 * 86400) ∧
    mostSigPhrase 0 266400 ≠ "0 minutes".data ∧
    mostSigPhrase 0 266400 ≠ "1 day".data ∧
    timesince (some 0) 266400 = TSResult.str (mostSigPhrase 0 266400 ++ " ago".data) :=
  ⟨by decide, by decide, by decide,
    timesince_most_significant_unit 0 266400 (by decide) (by decide) (by decide)⟩

/-! ### Claims about `percent` -/

/-- C7 counterexample: percent(29, 100) computes the binary64 product
29/100.0 * 100 = 28.999999999999996 and truncates it to 28, while the
claimed floor(29 / 100 * 100) is 29. -/
theorem percent_floor_counterexample :
    percent 29 100 = 28 ∧ Int.fdiv (29 * 100) 100 = 29 ∧
    percent 29 100 ≠ Int.fdiv (29 * 100) 100 := by
  refine ⟨by decide, by decide, by decide⟩

/-- C7 amended: percent returns 0 when value or total is falsy (zero), and
otherwise truncates toward zero the binary64 value of value/total*100 —
which can fall one below the exact floor(value/total*100); the claim's
examples percent(0,100) = 0, percent(50,200) = 25 and percent(5,0) = 0 all
hold. -/
theorem percent_spec (value total : ℤ) :
    (value = 0 ∨ total = 0 → percent value total = 0) ∧
    (value ≠ 0 → total ≠ 0 →
      percent value total =
        pyTrunc (f64mul (f64div (floatOfInt value) (floatOfInt total)) (PyQ.ofNat 100))) ∧
    percent 0 100 = 0 ∧ percent 50 200 = 25 ∧ percent 5 0 = 0 := by
  refine ⟨fun h => by simp [percent, h], fun h1 h2 => by simp [percent, h1, h2],
    by decide, by decide, by decide⟩

/-- Witness for C7 at (29, 100). -/
theorem percent_spec_witness :
    ((29 : ℤ) ≠ 0) ∧ ((100 : ℤ) ≠ 0) ∧
    percent 29 100 =
      pyTrunc (f64mul (f64div (floatOfInt 29) (floatOfInt 100)) (PyQ.ofNat 100)) :=
  ⟨by decide, by decide, (percent_spec 29 100).2.1 (by decide) (by decide)⟩

/-! ### Lemmas for the `pprint` chunking -/

theorem chunksFuel_fuel_irrel (f1 : ℕ) : ∀ f2 k s, s.length ≤ f1 → s.length ≤ f2 →
    0 < k → chunksFuel f1 k s = chunksFuel f2 k s := by
  induction f1 with
  | zero =>
    intro f2 k s h1 h2 hk
    have hnil : s = [] := List.length_eq_zero.mp (by omega)
    rw [hnil]
    cases f2 <;> rfl
  | succ f1 ih =>
    intro f2 k s h1 h2 hk
    cases s with
    | nil => cases f2 <;> rfl
    | cons a t =>
      cases f2 with
      | zero => simp at h2
      | succ f2 =>
        simp only [chunksFuel]
        congr 1
        apply ih f2 k ((a :: t).drop k) ?_ ?_ hk
        · rw [List.length_drop]
          simp only [List.length_cons] at h1 ⊢
          omega
        · rw [List.length_drop]
          simp only [List.length_cons] at h2 ⊢
          omega

theorem chunksSpec_cons (k : ℕ) (hk : 0 < k) (s : Chars) (hs : s ≠ []) :
    chunksSpec k s = s.take k :: chunksSpec k (s.drop k) := by
  unfold chunksSpec
  cases s with
  | nil => exact absurd rfl hs
  | cons a t =>
    simp only [List.length_cons, chunksFuel]
    congr 1
    apply chunksFuel_fuel_irrel t.length ((a :: t).drop k).length k ((a :: t).drop k) ?_
      (le_refl _) hk
    rw [List.length_drop]
    simp only [List.length_cons]
    omega

theorem range'_map_chunks (k : ℕ) (hk : 0 < k) :
    ∀ c s, c = (s.length + k - 1) / k →
    (List.range' 0 c k).map (fun i => (s.drop i).take k) = chunksSpec k s := by
  intro c
  induction c with
  | zero =>
    intro s hc
    have hs : s.length = 0 := by
      by_contra hne
      have h1 : 1 ≤ s.length := by omega
      have e1 : s.length + k - 1 = (s.length - 1) + k := by omega
      rw [e1, Nat.add_div_right _ hk] at hc
      exact Nat.succ_ne_zero _ hc.symm
    rw [List.length_eq_zero.mp hs]
    rfl
  | succ c ih =>
    intro s hc
    have hs : s ≠ [] := by
      intro h
      subst h
      simp only [List.length_nil] at hc
      rw [show 0 + k - 1 = k - 1 from by omega, Nat.div_eq_of_lt (by omega)] at hc
      omega
    have hlen : 1 ≤ s.length := by
      cases s with
      | nil => exact absurd rfl hs
      | cons a t => simp
    rw [List.range'_succ, List.map_cons, List.drop_zero, chunksSpec_cons k hk s hs]
    congr 1
    rw [show (0 + k) = k + 0 from by omega, ← List.map_add_range' k 0 c k, List.map_map]
    rw [show ((fun i => (s.drop i).take k) ∘ fun x => k + x) =
        (fun i => ((s.drop k).drop i).take k) from by
      funext i
      simp only [Function.comp_apply, List.drop_drop]]
    apply ih
    rw [List.length_drop]
    have e1 : s.length + k - 1 = (s.length - 1) + k := by omega
    rw [e1, Nat.add_div_right _ hk] at hc
    have hc2 : c = (s.length - 1) / k := Nat.succ_injective hc
    by_cases hlk : k ≤ s.length
    · rw [show s.length - k + k - 1 = s.length - 1 from by omega]
      exact hc2
    · rw [show s.length - k + k - 1 = k - 1 from by omega,
        Nat.div_eq_of_lt (show k - 1 < k by omega), hc2,
        Nat.div_eq_of_lt (show s.length - 1 < k by omega)]

theorem chunksFuel_length_le (f : ℕ) : ∀ k s c, c ∈ chunksFuel f k s → c.length ≤ k := by
  induction f with
  | zero => intro k s c hc; simp [chunksFuel] at hc
  | succ f ih =>
    intro k s c hc
    cases s with
    | nil => simp [chunksFuel] at hc
    | cons a t =>
      simp only [chunksFuel, List.mem_cons] at hc
      rcases hc with rfl | hc
      · rw [List.length_take]
        exact inf_le_left
      · exact ih k _ c hc

theorem chunksFuel_flatten (f : ℕ) : ∀ k s, 0 < k → s.length ≤ f →
    (chunksFuel f k s).flatten = s := by
  induction f with
  | zero =>
    intro k s hk h
    have hnil : s = [] := List.length_eq_zero.mp (by omega)
    rw [hnil]
    rfl
  | succ f ih =>
    intro k s hk h
    cases s with
    | nil => rfl
    | cons a t =>
      simp only [chunksFuel, List.flatten_cons]
      rw [ih k _ hk (by
        rw [List.length_drop]
        simp only [List.length_cons] at h ⊢
        omega)]
      exact List.take_append_drop k (a :: t)

/-! ### Claims about `pprint` -/

/-- C8: for every string and every positive break width, pprint splits the
string into the consecutive chunks of at most break_after characters,
HTML-escapes each chunk, and joins them with the soft-wrap marker; the
chunks concatenate back to the string, and "abcdefghijkl" with width 5
yields exactly 3 chunks, each of length at most 5. -/
theorem pprint_soft_wrap (s : Chars) (k : ℤ) (hk : 0 < k) :
    pprint s k =
      some (List.intercalate "<span></span>".data ((chunksSpec k.toNat s).map escape)) ∧
    (∀ c ∈ chunksSpec k.toNat s, c.length ≤ k.toNat) ∧
    (chunksSpec k.toNat s).flatten = s ∧
    (chunksSpec 5 "abcdefghijkl".data).length = 3 ∧
    (∀ c ∈ chunksSpec 5 "abcdefghijkl".data, c.length ≤ 5) := by
  have hk0 : ¬ k = 0 := by omega
  have hkneg : ¬ k < 0 := by omega
  have hkt : 0 < k.toNat := by omega
  refine ⟨?_, fun c hc => chunksFuel_length_le _ _ _ c hc,
    chunksFuel_flatten _ _ _ hkt (le_refl _), by decide, by decide⟩
  unfold pprint pyRange
  rw [if_neg hk0, if_neg hkneg]
  rw [Option.map_some']
  congr 1
  simp only [pySlice]
  rw [show (fun i => escape (List.take k.toNat (List.drop i s))) =
      (escape ∘ fun i => (s.drop i).take k.toNat) from rfl]
  rw [← List.map_map escape (fun i => (s.drop i).take k.toNat)]
  rw [range'_map_chunks k.toNat hkt _ s rfl]

/-- Witness for C8 at "abc" with break width 2. -/
theorem pprint_soft_wrap_witness :
    (0 : ℤ) < 2 ∧
    pprint "abc".data 2 =
      some (List.intercalate "<span></span>".data
        ((chunksSpec (2 : ℤ).toNat "abc".data).map escape)) :=
  ⟨by decide, (pprint_soft_wrap "abc".data 2 (by decide)).1⟩

/-- C10 counterexample: with break width 0, `range(0, 0, 0)` raises
ValueError, so pprint applied to the empty string returns no string at
all rather than the empty string. -/
theorem pprint_empty_zero_counterexample :
    pprint [] 0 = none ∧ pprint [] 0 ≠ some [] := by
  refine ⟨by decide, by decide⟩

/-- C10 amended: for every nonzero break width, pprint applied to the empty
string returns the empty string: no break marker and no escaped chunk. -/
theorem pprint_empty (k : ℤ) (hk : k ≠ 0) : pprint [] k = some [] := by
  unfold pprint pyRange
  rw [if_neg hk]
  by_cases hneg : k < 0
  · rw [if_pos hneg]
    rfl
  · rw [if_neg hneg]
    rw [show ((([] : Chars).length + k.toNat - 1) / k.toNat) = 0 from by
      rw [List.length_nil]
      exact Nat.div_eq_of_lt (by omega)]
    rfl

/-- Witness for C10 at break width 3. -/
theorem pprint_empty_witness : (3 : ℤ) ≠ 0 ∧ pprint [] 3 = some [] :=
  ⟨by decide, pprint_empty 3 (by decide)⟩

end SentryHelpers
